import Mathlib

/-!
Shallow embedding, in Lean 4, of the update-handling core of the
TheChampu/pyrogram repository (files src/pyrogram/client.py and
src/pyrogram/dispatcher.py), together with theorems settling the claims
about that code.

Modelling conventions:
* Python dictionaries are modelled as association lists kept in insertion
  order (Python dicts preserve insertion order), oldest entry first.
* Python integers are modelled as Int (or Nat where the source value is a
  count), Python None/attribute-absence as Option.
* Python truthiness tests on integers, strings and lists are modelled
  explicitly (0, "", [] and None are falsy).
* Coroutines are modelled as pure functions: the result of an awaited
  server call becomes an explicit input of the modelled function, and
  side effects (storage writes, queue insertions, server invocations)
  become an explicit effect trace.
-/

namespace Pyro

/-! ### Bounded Cache — client.py, class Cache (lines 1290-1306)

The store dict is modelled as an insertion-ordered association list,
oldest entry first.  `next(iter(self.store))` is the first (oldest) key,
so the eviction loop `for _ in range(self.capacity // 2 + 1): del ...`
drops the first `capacity / 2 + 1` entries of the list. -/

structure PyCache (α β : Type) where
  capacity : Nat
  store : List (α × β)
  deriving Repr, DecidableEq

/-- Cache.__init__: empty store with the given capacity. -/
def PyCache.mk0 (α β : Type) (capacity : Nat) : PyCache α β :=
  { capacity := capacity, store := [] }

/-- Cache.__getitem__: `self.store.get(key, None)`. -/
def PyCache.getItem [DecidableEq α] (c : PyCache α β) (key : α) : Option β :=
  (c.store.find? (fun e => decide (e.1 = key))).map (fun e => e.2)

/-- Cache.__setitem__: delete `key` if present, insert `(key, value)` at the
end, then, if the store exceeds capacity, delete the oldest
`capacity / 2 + 1` entries. -/
def PyCache.setItem [DecidableEq α] (c : PyCache α β) (key : α) (value : β) :
    PyCache α β :=
  let s1 := c.store.filter (fun e => decide (e.1 ≠ key))
  let s2 := s1 ++ [(key, value)]
  if s2.length > c.capacity then
    { c with store := s2.drop (c.capacity / 2 + 1) }
  else
    { c with store := s2 }

/-- One observable Cache operation: an insertion or a lookup. -/
inductive CacheOp (α β : Type) where
  | set (key : α) (value : β)
  | get (key : α)
  deriving Repr, DecidableEq

/-- Apply one operation to a cache. Lookups do not mutate the store. -/
def PyCache.applyOp [DecidableEq α] (c : PyCache α β) :
    CacheOp α β → PyCache α β
  | .set k v => c.setItem k v
  | .get _ => c

/-- Run a sequence of operations on a fresh cache of capacity `cap`. -/
def PyCache.runOps [DecidableEq α] (cap : Nat) (ops : List (CacheOp α β)) :
    PyCache α β :=
  ops.foldl PyCache.applyOp (PyCache.mk0 α β cap)

example :
    (PyCache.setItem ⟨3, [(1, 10), (2, 20), (3, 30)]⟩ 4 (40 : Nat)).store
      = [(3, 30), (4, 40)] := by decide

example :
    (PyCache.setItem ⟨4, [(1, 10), (2, 20), (3, 30), (4, 40)]⟩ 5 (50 : Nat)).store
      = [(4, 40), (5, 50)] := by decide

/-! ### Peer cache upsert — client.py, Client.fetch_peers (lines 618-667) -/

/-- Modelled from the spec: utils.get_channel_id is not under src/.  Per the
spec (§3, §4.5) a channel scope id is the canonical marked form of the bare
channel id, a negative number distinct from user and basic-group ids; the
standard marking maps bare id `i` to `-(1000000000000 + i)`. -/
def get_channel_id (i : Int) : Int := -(1000000000000 + i)

/-- Python truthiness of an optional string: None and "" are falsy. -/
def truthyStr : Option String → Bool
  | none => false
  | some s => decide (s ≠ "")

/-- The raw peer records fetch_peers receives (raw.types.User / Chat /
ChatForbidden / Channel / ChannelForbidden, plus a catch-all for any other
shape, which the source skips with a bare `continue`).

* `Chat` and `ChatForbidden` are handled by one isinstance branch and
  carry no `min`, `access_hash`, `username` or `usernames` attributes, so
  they collapse to one constructor here.
* `getattr(peer, "min", False)` is False for the variants lacking the
  attribute, hence only `user` and `channel` carry a `min` field.
* A `usernames` attribute that is absent/None and one that is an empty
  list are both falsy, so both are modelled as the empty list; the list
  elements model the `.username` field of each raw.types.Username. -/
inductive RawPeer where
  | user (id : Int) (accessHash : Option Int) (phone : Option String)
      (bot : Bool) (isMin : Bool) (username : Option String)
      (usernames : List String)
  | chat (id : Int)
  | channel (id : Int) (accessHash : Option Int) (broadcast : Bool)
      (isMin : Bool) (username : Option String) (usernames : List String)
  | channelForbidden (id : Int) (accessHash : Option Int) (broadcast : Bool)
  | other
  deriving Repr, DecidableEq

/-- `getattr(peer, "min", False)`. -/
def RawPeer.minFlag : RawPeer → Bool
  | .user _ _ _ _ m _ _ => m
  | .channel _ _ _ m _ _ => m
  | _ => false

/-- One row appended to parsed_peers: (peer_id, access_hash, peer_type,
phone_number).  peer_type is the literal string the source stores. -/
structure PeerRow where
  peerId : Int
  accessHash : Option Int
  peerType : String
  phone : Option String
  deriving Repr, DecidableEq

/-- The lowercased username list collected for one peer: `username` if
truthy, else all entries of `usernames` (possibly empty). -/
def RawPeer.collectUsernames (username : Option String)
    (usernames : List String) : List String :=
  if truthyStr username then [(username.getD "").toLower]
  else usernames.map String.toLower

/-- The parsed_peers row for one non-min peer, or none for the catch-all
shape (the source `continue`s without appending anything). -/
def RawPeer.parsedRow : RawPeer → Option PeerRow
  | .user id ah ph bot _ _ _ =>
      some ⟨id, ah, if bot then "bot" else "user", ph⟩
  | .chat id => some ⟨-id, some 0, "group", none⟩
  | .channel id ah broadcast _ _ _ =>
      some ⟨get_channel_id id, ah,
        if broadcast then "channel" else "supergroup", none⟩
  | .channelForbidden id ah broadcast =>
      some ⟨get_channel_id id, ah,
        if broadcast then "channel" else "supergroup", none⟩
  | .other => none

/-- The parsed_usernames row for one non-min peer, or none for shapes the
loop skips.  ChannelForbidden and Chat append an empty username list. -/
def RawPeer.parsedUsernameRow : RawPeer → Option (Int × List String)
  | .user id _ _ _ _ u us => some (id, RawPeer.collectUsernames u us)
  | .chat id => some (-id, [])
  | .channel id _ _ _ u us =>
      some (get_channel_id id, RawPeer.collectUsernames u us)
  | .channelForbidden id _ _ => some (get_channel_id id, [])
  | .other => none

/-- Result of fetch_peers: the two storage upsert batches and the returned
is_min flag. -/
structure FetchPeersResult where
  parsedPeers : List PeerRow
  parsedUsernames : List (Int × List String)
  isMin : Bool
  deriving Repr, DecidableEq

/-- Client.fetch_peers: one pass over the input peers.  A peer with the
min flag set only sets is_min and is skipped; every other recognized
shape contributes one parsed_peers row and one parsed_usernames row. -/
def fetchPeers : List RawPeer → FetchPeersResult
  | [] => ⟨[], [], false⟩
  | p :: rest =>
      let r := fetchPeers rest
      if p.minFlag then ⟨r.parsedPeers, r.parsedUsernames, true⟩
      else
        match p.parsedRow, p.parsedUsernameRow with
        | some row, some urow =>
            ⟨row :: r.parsedPeers, urow :: r.parsedUsernames, r.isMin⟩
        | _, _ => r

example :
    (fetchPeers [.user 7 (some 5) none false true none [],
                 .chat 9]).isMin = true := by decide

example :
    (fetchPeers [.user 7 (some 5) none false true (some "Ann") ["X"],
                 .chat 9]).parsedPeers
      = [⟨-9, some 0, "group", none⟩] := by decide

/-! ### Update handling — client.py, Client.handle_updates (lines 669-770)

The coroutine is modelled as a pure function from the decoded updates
payload to the ordered trace of its observable effects.  Server calls
performed inside the function (updates.GetChannelDifference and
updates.GetDifference) appear in the trace as invoke effects; the reply
of the GetDifference call in the short-message path determines which
update is enqueued, so that reply is an explicit input of the model.
The contents of the users/chats reference dictionaries attached to each
queued packet are not modelled; only which updates are enqueued is. -/

/-- Python truthiness of an optional integer: None and 0 are falsy. -/
def truthyInt : Option Int → Bool
  | none => false
  | some v => decide (v ≠ 0)

/-- Python `a or b` on two optional integers (used for the channel_id
getattr chain): yields `b` whenever `a` is None or 0. -/
def pyOrInt (a b : Option Int) : Option Int :=
  if truthyInt a then a else b

/-- One element of `updates.updates` inside a raw.types.Updates or
raw.types.UpdatesCombined container.  `tag` identifies the update object
(for tracking it through the queue); the remaining fields model exactly
the attributes handle_updates reads via getattr:
* `pts`, `ptsCount`: `getattr(update, "pts"/"pts_count", None)`;
* `msgChannelId`: the chain `update.message.peer_id.channel_id`, None as
  soon as one link is missing;
* `updChannelId`: `getattr(update, "channel_id", None)`;
* `isChannelTooLong`: isinstance raw.types.UpdateChannelTooLong;
* `isNewChannelMessage`: isinstance raw.types.UpdateNewChannelMessage;
* `hasNonEmptyMessage`: the inner message is not a raw.types.MessageEmpty. -/
structure UpdItem where
  tag : Nat
  pts : Option Int
  ptsCount : Option Int
  msgChannelId : Option Int
  updChannelId : Option Int
  isChannelTooLong : Bool
  isNewChannelMessage : Bool
  hasNonEmptyMessage : Bool
  deriving Repr, DecidableEq

/-- The decoded updates payload handed to handle_updates, one constructor
per isinstance branch of the source:
* `container`: raw.types.Updates / raw.types.UpdatesCombined, with its
  users/chats peer lists, date, seq and inner update list;
* `shortMessage`: raw.types.UpdateShortMessage /
  raw.types.UpdateShortChatMessage; `diffNewMessages` and
  `diffOtherUpdates` model the sizes of the corresponding lists in the
  reply the source awaits from updates.GetDifference, and `tag` labels
  the update the source then enqueues;
* `updateShort`: raw.types.UpdateShort, whose inner update gets `tag`;
* `tooLong`: raw.types.UpdatesTooLong (only logged). -/
inductive UpdatesPayload where
  | container (users chats : List RawPeer) (date : Int) (seq : Int)
      (items : List UpdItem)
  | shortMessage (tag : Nat) (pts : Int) (ptsCount : Int) (date : Int)
      (diffNewMessages : Nat) (diffOtherUpdates : Nat)
  | updateShort (tag : Nat)
  | tooLong
  deriving Repr, DecidableEq

/-- Observable effects of handle_updates, in program order. -/
inductive Effect where
  /-- storage.update_peers(parsed_peers) -/
  | updatePeers (rows : List PeerRow)
  /-- storage.update_usernames(parsed_usernames) -/
  | updateUsernames (rows : List (Int × List String))
  /-- storage.update_state((scope, pts, qts, date, seq)) -/
  | updateState (scope : Int) (pts : Int) (qts : Option Int)
      (date : Option Int) (seq : Option Int)
  /-- log.info(...) for UpdateChannelTooLong / UpdatesTooLong -/
  | logInfo
  /-- invoke(updates.GetChannelDifference(...)) for a min channel message -/
  | invokeChannelDiff (tag : Nat)
  /-- invoke(updates.GetDifference(pts, date, qts)) in the short path -/
  | invokeGetDifference (pts : Int) (date : Int)
  /-- dispatcher.updates_queue.put_nowait of the update labelled `tag` -/
  | enqueue (tag : Nat)
  deriving Repr, DecidableEq

/-- The scope id the source persists for an item: the channel_id getattr
chain combined with `or`, then `utils.get_channel_id(channel_id) if
channel_id else 0`. -/
def UpdItem.scopeId (it : UpdItem) : Int :=
  match pyOrInt it.msgChannelId it.updChannelId with
  | some c => if c ≠ 0 then get_channel_id c else 0
  | none => 0

/-- Effects of the per-item body of the `for update in updates.updates`
loop: optional state write, optional log, optional min-channel
difference fetch, then the unconditional enqueue of the item. -/
def UpdItem.effects (skipUpdates : Bool) (date : Int) (seq : Int)
    (isMin : Bool) (it : UpdItem) : List Effect :=
  (if truthyInt it.pts && !skipUpdates then
    [Effect.updateState it.scopeId (it.pts.getD 0) none (some date) (some seq)]
  else [])
  ++ (if it.isChannelTooLong then [Effect.logInfo] else [])
  ++ (if it.isNewChannelMessage && isMin && it.hasNonEmptyMessage then
    [Effect.invokeChannelDiff it.tag]
  else [])
  ++ [Effect.enqueue it.tag]

/-- The item loop, in order. -/
def itemLoop (skipUpdates : Bool) (date : Int) (seq : Int) (isMin : Bool) :
    List UpdItem → List Effect
  | [] => []
  | it :: rest =>
      it.effects skipUpdates date seq isMin
        ++ itemLoop skipUpdates date seq isMin rest

/-- Client.handle_updates as an effect trace. -/
def handleUpdates (skipUpdates : Bool) : UpdatesPayload → List Effect
  | .container users chats date seq items =>
      let ru := fetchPeers users
      let rc := fetchPeers chats
      let isMin := ru.isMin || rc.isMin
      [Effect.updatePeers ru.parsedPeers,
       Effect.updateUsernames ru.parsedUsernames,
       Effect.updatePeers rc.parsedPeers,
       Effect.updateUsernames rc.parsedUsernames]
        ++ itemLoop skipUpdates date seq isMin items
  | .shortMessage tag pts ptsCount date diffNew diffOther =>
      (if !skipUpdates then
        [Effect.updateState 0 pts none (some date) none]
      else [])
        ++ [Effect.invokeGetDifference (pts - ptsCount) date]
        ++ (if diffNew > 0 then [Effect.enqueue tag]
            else if diffOther > 0 then [Effect.enqueue tag] else [])
  | .updateShort tag => [Effect.enqueue tag]
  | .tooLong => [Effect.logInfo]

/-! The persisted per-scope state table.  The storage backend is not under
src/; modelled from the spec (§3, §6): a set-or-enumerate table of
per-scope tuples (scope id, pts, qts, date, seq) keyed by scope id, where
update_state with a tuple upserts the row of that scope. -/

/-- Modelled from the spec: one persisted Channel/Global State row
(scope id is the key and is kept separately). -/
structure StateRow where
  pts : Int
  qts : Option Int
  date : Option Int
  seq : Option Int
  deriving Repr, DecidableEq

/-- Modelled from the spec: the state table, keyed by scope id. -/
abbrev StateTable := List (Int × StateRow)

/-- Modelled from the spec: upsert of one scope row (storage.update_state
called with a tuple). -/
def StateTable.upsert (st : StateTable) (scope : Int) (row : StateRow) :
    StateTable :=
  if st.any (fun e => decide (e.1 = scope)) then
    st.map (fun e => if e.1 = scope then (scope, row) else e)
  else
    st ++ [(scope, row)]

/-- The pts the table records for a scope, if any. -/
def StateTable.recordedPts (st : StateTable) (scope : Int) : Option Int :=
  (st.find? (fun e => decide (e.1 = scope))).map (fun e => e.2.pts)

/-- Apply one effect to the state table: only update_state touches it
(update_peers/update_usernames write other tables). -/
def StateTable.applyEffect (st : StateTable) : Effect → StateTable
  | .updateState scope pts qts date seq => st.upsert scope ⟨pts, qts, date, seq⟩
  | _ => st

/-- Apply a whole effect trace. -/
def StateTable.applyTrace (st : StateTable) (tr : List Effect) : StateTable :=
  tr.foldl StateTable.applyEffect st

/-- Run handle_updates against a client whose persisted state table is
`st`: the resulting table and the emitted trace.  The trace does not
depend on `st` — the source never reads the table here. -/
def runHandleUpdates (skipUpdates : Bool) (st : StateTable)
    (u : UpdatesPayload) : StateTable × List Effect :=
  let tr := handleUpdates skipUpdates u
  (st.applyTrace tr, tr)

example :
    handleUpdates false
      (.container [] [] 55 7 [⟨1, some 10, some 1, none, none, false, false, false⟩])
      = [Effect.updatePeers [], Effect.updateUsernames [],
         Effect.updatePeers [], Effect.updateUsernames [],
         Effect.updateState 0 10 none (some 55) (some 7),
         Effect.enqueue 1] := by decide

/-! ### Gap recovery — client.py, Client.recover_gaps (lines 772-856)

Only the per-scope `while True` fetch loop is modelled.  Each iteration
awaits one server reply (or an RPC error caught by the except clause);
the sequence of replies the server would produce is modelled as a stream
`Nat → DiffResp`, and the loop as an iterated step function.  The loop
exits by `break`; the model records, after n iterations, the current
loop state and whether the loop is still running. -/

/-- One reply of updates.GetDifference / updates.GetChannelDifference, or
an RPC error raised by the invoke (ChannelPrivate, ChannelInvalid,
PersistentTimestampOutdated, PersistentTimestampInvalid).  Message and
other-update counts model the lengths of `diff.new_messages` and
`diff.other_updates`. -/
inductive DiffResp where
  | rpcError
  | diffEmpty
  | diffTooLong
  | diffFinal (statePts : Int) (newMsgs : Nat) (others : Nat)
  | diffSlice (interPts : Int) (interDate : Int) (newMsgs : Nat) (others : Nat)
  | chDiffEmpty
  | chDiffTooLong
  | chDiffFinal (pts : Int) (newMsgs : Nat) (others : Nat)
  deriving Repr, DecidableEq

/-- Is the reply a partial slice (raw.types.updates.DifferenceSlice)? -/
def DiffResp.isSlice : DiffResp → Bool
  | .diffSlice _ _ _ _ => true
  | _ => false

/-- The intermediate pts of a slice (0 for other shapes, unused). -/
def DiffResp.slicePts : DiffResp → Int
  | .diffSlice p _ _ _ => p
  | _ => 0

/-- Mutable state of one per-scope fetch loop: local_pts, local_date, the
prev_pts no-progress marker (initialised to 0), and the two counters. -/
structure RecState where
  localPts : Int
  localDate : Int
  prevPts : Int
  msgCount : Nat
  otherCount : Nat
  deriving Repr, DecidableEq

/-- One iteration of the fetch loop body on reply `r`: the updated state
and whether the loop continues (`false` = some `break` ran).

* An RPC error breaks at once.
* Difference/ChannelDifference Empty and TooLong break before touching
  the state or counters.
* Difference advances local_pts to `diff.state.pts`, re-injects the
  recovered messages/updates, and breaks at the final isinstance check;
  ChannelDifference likewise with `diff.pts`.
* DifferenceSlice advances local_pts/local_date to the intermediate
  state, then breaks if prev_pts already equals the new local_pts;
  otherwise it records prev_pts, re-injects, and continues. -/
def recStep (s : RecState) : DiffResp → RecState × Bool
  | .rpcError => (s, false)
  | .diffEmpty => (s, false)
  | .diffTooLong => (s, false)
  | .chDiffEmpty => (s, false)
  | .chDiffTooLong => (s, false)
  | .diffFinal p m o =>
      ({ s with
          localPts := p
          msgCount := s.msgCount + m
          otherCount := s.otherCount + o }, false)
  | .chDiffFinal p m o =>
      ({ s with
          localPts := p
          msgCount := s.msgCount + m
          otherCount := s.otherCount + o }, false)
  | .diffSlice p d m o =>
      if s.prevPts = p then
        ({ s with localPts := p, localDate := d }, false)
      else
        ({ s with
            localPts := p
            localDate := d
            prevPts := p
            msgCount := s.msgCount + m
            otherCount := s.otherCount + o }, true)

/-- The loop after n iterations against reply stream `resp`, starting
from state `s`.  Once the continue flag is false it stays false. -/
def recRun (resp : Nat → DiffResp) (s : RecState) : Nat → RecState × Bool
  | 0 => (s, true)
  | n + 1 =>
      let prev := recRun resp s n
      if prev.2 then recStep prev.1 (resp n) else (prev.1, false)

/-- The per-scope fetch loop terminates against stream `resp` from state
`s` when some finite number of iterations reaches a break. -/
def RecTerminates (resp : Nat → DiffResp) (s : RecState) : Prop :=
  ∃ n, (recRun resp s n).2 = false

/-- The initial loop state for a scope whose stored row is (pts, date):
prev_pts starts at 0 and the counters at the totals so far (0 here). -/
def recInit (pts date : Int) : RecState := ⟨pts, date, 0, 0, 0⟩

/-- An adversarial reply stream: partial slices whose intermediate pts
alternates between 5 and 6. -/
def altSliceStream (n : Nat) : DiffResp :=
  .diffSlice (if n % 2 = 0 then 5 else 6) 0 0 0

/-- The prev_pts value the loop holds after n iterations against
altSliceStream. -/
def altPrev : Nat → Int
  | 0 => 0
  | n + 1 => if n % 2 = 0 then 5 else 6

example : (recRun altSliceStream (recInit 1 1) 4).2 = true := by decide
example : (recRun (fun _ => .diffEmpty) (recInit 1 1) 1).2 = false := by decide

/-! ### Handler registry and dispatch pass — dispatcher.py,
Dispatcher.add_handler (lines 297-312) and Dispatcher.handler_worker
(lines 330-392)

The group table `self.groups` is an OrderedDict, modelled as an
association list in dict order.  add_handler creates the group list on
demand and re-sorts the whole table by group key via
`OrderedDict(sorted(self.groups.items()))`; `sorted` is modelled by an
insertion sort on the keys, which produces the same ascending ordering
(keys are distinct, so stability does not matter).

A dispatch pass handles one fixed update, so each handler is modelled by
what that update makes it do: whether `args` gets set for it (its
isinstance test matches and `handler.check` returns truthy without
raising — a check that raises or a non-matching handler leaves args None
and the loop continues either way), and what its callback then does. -/

/-- Outcome of one callback invocation for the dispatched update. -/
inductive CbResult where
  /-- returns normally: the per-group loop ends with `break` -/
  | ok
  /-- raises pyrogram.StopPropagation: re-raised, ending the whole pass -/
  | stopPropagation
  /-- raises pyrogram.ContinuePropagation: `continue` to the next handler -/
  | continuePropagation
  /-- raises any other Exception: logged, then the `break` runs -/
  | raisesError
  deriving Repr, DecidableEq

/-- One registered handler, specialised to the dispatched update. -/
structure DHandler where
  hid : Nat
  argsSet : Bool
  cb : CbResult
  deriving Repr, DecidableEq

/-- The group table: (group key, handlers in registration order), in
OrderedDict order. -/
abbrev GroupTable := List (Int × List DHandler)

/-- Insert one keyed entry into a key-sorted association list. -/
def insertByKey (p : Int × List DHandler) : GroupTable → GroupTable
  | [] => [p]
  | q :: rest =>
      if p.1 ≤ q.1 then p :: q :: rest else q :: insertByKey p rest

/-- `sorted(self.groups.items())`: insertion sort by group key. -/
def sortByKey : GroupTable → GroupTable
  | [] => []
  | p :: rest => insertByKey p (sortByKey rest)

/-- Append a handler to the list of its (existing) group. -/
def appendToGroup (gs : GroupTable) (g : Int) (h : DHandler) : GroupTable :=
  gs.map (fun e => if e.1 = g then (e.1, e.2 ++ [h]) else e)

/-- Dispatcher.add_handler body (the part guarded by the worker locks):
create the group with an empty list and re-sort if absent, then append
the handler to its group. -/
def addHandler (gs : GroupTable) (h : DHandler) (g : Int) : GroupTable :=
  let gs1 := if gs.any (fun e => decide (e.1 = g)) then gs
    else sortByKey (gs ++ [(g, [])])
  appendToGroup gs1 g h

/-- The table after a sequence of add_handler calls, from the initial
empty OrderedDict. -/
def buildGroups : List (DHandler × Int) → GroupTable
  | [] => []
  | (h, g) :: rest => addHandler (buildGroups rest) h g
-- note: registrations are applied oldest-last in this recursion; see
-- buildGroupsL below for the fold form used by the theorems.

/-- The table after a sequence of add_handler calls, oldest first. -/
def buildGroupsL (ops : List (DHandler × Int)) : GroupTable :=
  ops.foldl (fun gs op => addHandler gs op.1 op.2) []

/-- The `for handler in group` loop: returns the hids whose callbacks ran,
in order, and whether StopPropagation was raised (ending the pass). -/
def runGroup : List DHandler → List Nat × Bool
  | [] => ([], false)
  | h :: rest =>
      if h.argsSet then
        match h.cb with
        | .stopPropagation => ([h.hid], true)
        | .continuePropagation =>
            let r := runGroup rest
            (h.hid :: r.1, r.2)
        | .ok => ([h.hid], false)
        | .raisesError => ([h.hid], false)
      else runGroup rest

/-- The `for group in self.groups.values()` loop of one dispatch pass:
the hids of all callbacks invoked, in order.  A StopPropagation escape
skips every remaining group. -/
def dispatchPass : GroupTable → List Nat
  | [] => []
  | (_, hs) :: rest =>
      if (runGroup hs).2 then (runGroup hs).1
      else (runGroup hs).1 ++ dispatchPass rest

/-- OrderedDict lookup `self.groups[g]`. -/
def lookupGroup (gs : GroupTable) (g : Int) : Option (List DHandler) :=
  (gs.find? (fun e => decide (e.1 = g))).map (fun e => e.2)

/-- The handlers registered to group g by a sequence of add_handler
calls, in registration order. -/
def regOrder (ops : List (DHandler × Int)) (g : Int) : List DHandler :=
  (ops.filter (fun o => decide (o.2 = g))).map Prod.fst

example :
    buildGroupsL [(⟨0, true, .ok⟩, 5), (⟨1, true, .ok⟩, -3)]
      = [(-3, [⟨1, true, .ok⟩]), (5, [⟨0, true, .ok⟩])] := by decide

example :
    dispatchPass [(0, [⟨0, true, .ok⟩]), (1, [⟨1, true, .ok⟩])]
      = [0, 1] := by decide

example :
    dispatchPass [(0, [⟨0, true, .stopPropagation⟩]), (1, [⟨1, true, .ok⟩])]
      = [0] := by decide

example :
    dispatchPass [(0, [⟨0, true, .continuePropagation⟩, ⟨1, false, .ok⟩,
      ⟨2, true, .ok⟩, ⟨3, true, .ok⟩])] = [0, 2] := by decide

/-! ### CDN chunk decryption and verification — client.py, Client.get_file,
CDN-redirect branch (lines 1191-1272)

Byte strings are modelled as `List Nat` (each element a byte value).
`aes.ctr256_decrypt` and `sha256` live in libraries that are not under
src/, so both are universally quantified function parameters in the
theorems; only their call pattern is taken from the source.
`CDNFileHashMismatch.check(cond, msg)` is from pyrogram.errors (not
under src/); modelled from the spec (§4.2, explicit chunk-hash
verification): it raises CDNFileHashMismatch when the condition is
false. -/

/-- `bytes[a:b]`: Python slice of a byte string. -/
def pySlice (l : List Nat) (a b : Nat) : List Nat := (l.take b).drop a

/-- `v.to_bytes(4, "big")`: the 4 big-endian bytes of v (defined here by
truncation to 32 bits; the source raises OverflowError above that, a
case excluded by hypothesis where it matters). -/
def toBytes4BE (v : Nat) : List Nat :=
  [v / 2 ^ 24 % 256, v / 2 ^ 16 % 256, v / 2 ^ 8 % 256, v % 256]

/-- The per-chunk CTR IV the source builds:
`r.encryption_iv[:-4] + (offset_bytes // 16).to_bytes(4, "big")`. -/
def cdnChunkIv (encryptionIv : List Nat) (offsetBytes : Nat) : List Nat :=
  pySlice encryptionIv 0 (encryptionIv.length - 4) ++ toBytes4BE (offsetBytes / 16)

/-- One raw.types.FileHash from upload.GetCdnFileHashes: its piece size
and expected SHA-256 digest. -/
structure CdnFileHash where
  limit : Nat
  hash : List Nat
  deriving Repr, DecidableEq

/-- The verification loop `for i, h in enumerate(hashes)`: slice the
decrypted chunk as `decrypted_chunk[h.limit * i : h.limit * (i + 1)]`
and compare its digest under `sha` with `h.hash`; the first mismatch
raises (returns false). -/
def verifyCdnHashes (sha : List Nat → List Nat) (decrypted : List Nat) :
    List CdnFileHash → Nat → Bool
  | [], _ => true
  | h :: rest, i =>
      if sha (pySlice decrypted (h.limit * i) (h.limit * (i + 1))) = h.hash then
        verifyCdnHashes sha decrypted rest (i + 1)
      else false

/-- The outcome of processing one CDN chunk: either the decrypted chunk
is yielded, or CDNFileHashMismatch is raised and nothing is yielded. -/
inductive CdnChunkOutcome where
  | yielded (chunk : List Nat)
  | hashMismatchRaised
  deriving Repr, DecidableEq

/-- The decrypt-verify-yield body of the CDN download loop for one chunk:
decrypt with the redirect-supplied key and per-chunk IV, verify every
hash-limit-sized piece, and only then yield the decrypted chunk. -/
def processCdnChunk (ctr256Decrypt : List Nat → List Nat → List Nat → List Nat)
    (sha : List Nat → List Nat) (encryptionKey encryptionIv : List Nat)
    (offsetBytes : Nat) (chunk : List Nat) (hashes : List CdnFileHash) :
    CdnChunkOutcome :=
  let decrypted := ctr256Decrypt chunk encryptionKey (cdnChunkIv encryptionIv offsetBytes)
  if verifyCdnHashes sha decrypted hashes 0 then .yielded decrypted
  else .hashMismatchRaised

/-! ### get_file exception policy — client.py, Client.get_file
(lines 1273-1278) and Client.handle_download (lines 1023-1053)

The whole generator body sits in a try block whose handlers are, in
order: `except pyrogram.StopTransmission: raise`,
`except (FloodWait, FloodPremiumWait): raise`,
`except Exception as e: log.exception(e)`.
Python exception classes are not under src/; modelled from the spec and
the language: pyrogram.StopTransmission, the flood-wait errors and every
pyrogram RPC error derive from Exception, while asyncio.CancelledError
derives only from BaseException (which `except Exception` does not
catch) — handle_download itself re-raises asyncio.CancelledError
escaping get_file, which documents that hierarchy in src/. -/

/-- The exception shapes relevant to the get_file try block. -/
inductive PyExc where
  | stopTransmission
  | floodWait
  | floodPremiumWait
  | cdnFileHashMismatch
  | authBytesInvalid
  | otherException
  /-- asyncio.CancelledError: BaseException-derived only -/
  | cancelledError
  deriving Repr, DecidableEq

/-- Modelled from the spec: which of these classes derive from Exception
(everything except asyncio.CancelledError, which derives only from
BaseException). -/
def PyExc.derivesFromException : PyExc → Bool
  | .cancelledError => false
  | _ => true

/-- What the consumer of the get_file generator observes when the body
raises `e`: the exception propagates, or it is logged and the generator
just stops. -/
inductive ExcOutcome where
  | propagated (e : PyExc)
  | loggedAndStreamEnded
  deriving Repr, DecidableEq

/-- The except-clause cascade at the end of get_file. -/
def getFileExcFilter (e : PyExc) : ExcOutcome :=
  if e = .stopTransmission then .propagated e
  else if e = .floodWait ∨ e = .floodPremiumWait then .propagated e
  else if e.derivesFromException then .loggedAndStreamEnded
  else .propagated e

/-- One step of the chunk-producing body: a chunk is yielded, or the body
raises. -/
inductive FetchStep where
  | chunk (c : List Nat)
  | raiseExc (e : PyExc)
  deriving Repr, DecidableEq

/-- The generator as the consumer sees it: the chunks yielded before the
first raise, and the exception that reaches the consumer, if any.  A
swallowed exception terminates the stream normally, so the consumer sees
a truncated chunk sequence with no error. -/
def getFileRun : List FetchStep → List (List Nat) × Option PyExc
  | [] => ([], none)
  | .chunk c :: rest =>
      let r := getFileRun rest
      (c :: r.1, r.2)
  | .raiseExc e :: _ =>
      match getFileExcFilter e with
      | .propagated e1 => ([], some e1)
      | .loggedAndStreamEnded => ([], none)

example :
    getFileRun [.chunk [1], .raiseExc .cancelledError]
      = ([[1]], some .cancelledError) := by decide

example :
    getFileRun [.chunk [1], .raiseExc .authBytesInvalid, .chunk [2]]
      = ([[1]], none) := by decide

/-- Is an effect a storage.update_state write? -/
def Effect.isStateWrite : Effect → Bool
  | .updateState _ _ _ _ _ => true
  | _ => false

/-- The envelope used by the C1 analysis: one update with pts 10 and
pts_count 1 in a raw.types.Updates container. -/
def c1Env : UpdatesPayload :=
  .container [] [] 55 7 [⟨1, some 10, some 1, none, none, false, false, false⟩]

/-- A state table recording pts 3 for the global scope. -/
def c1Table : StateTable := [(0, ⟨3, none, none, none⟩)]

/-! ## Theorems -/

section CacheTheorems

variable {α β : Type} [DecidableEq α]

theorem PyCache.capacity_setItem (c : PyCache α β) (k : α) (v : β) :
    (c.setItem k v).capacity = c.capacity := by
  unfold PyCache.setItem
  dsimp only
  split <;> rfl

theorem PyCache.length_setItem_le (c : PyCache α β) (k : α) (v : β)
    (h : c.store.length ≤ c.capacity) :
    (c.setItem k v).store.length ≤ c.capacity := by
  have hf : (c.store.filter (fun e => decide (e.1 ≠ k))).length ≤ c.store.length :=
    List.length_filter_le _ _
  unfold PyCache.setItem
  dsimp only
  split
  · next hgt =>
      dsimp only
      rw [List.length_drop, List.length_append, List.length_singleton]
      omega
  · next hle =>
      dsimp only
      rw [List.length_append, List.length_singleton] at hle ⊢
      omega

theorem PyCache.applyOp_invariant (c : PyCache α β) (op : CacheOp α β)
    (h : c.store.length ≤ c.capacity) :
    (c.applyOp op).store.length ≤ (c.applyOp op).capacity
      ∧ (c.applyOp op).capacity = c.capacity := by
  cases op with
  | set k v =>
      refine ⟨?_, PyCache.capacity_setItem c k v⟩
      have h1 : (c.applyOp (CacheOp.set k v)) = c.setItem k v := rfl
      rw [h1, PyCache.capacity_setItem]
      exact PyCache.length_setItem_le c k v h
  | get k => exact ⟨h, rfl⟩

theorem PyCache.foldl_invariant (ops : List (CacheOp α β)) :
    ∀ c : PyCache α β, c.store.length ≤ c.capacity →
      (ops.foldl PyCache.applyOp c).store.length
        ≤ (ops.foldl PyCache.applyOp c).capacity := by
  induction ops with
  | nil => intro c h; exact h
  | cons op rest ih =>
      intro c h
      rw [List.foldl_cons]
      exact ih (c.applyOp op) (PyCache.applyOp_invariant c op h).1

theorem PyCache.capacity_foldl (ops : List (CacheOp α β)) :
    ∀ c : PyCache α β, (ops.foldl PyCache.applyOp c).capacity = c.capacity := by
  induction ops with
  | nil => intro c; rfl
  | cons op rest ih =>
      intro c
      rw [List.foldl_cons, ih]
      cases op with
      | set k v => exact PyCache.capacity_setItem c k v
      | get k => rfl

/-- Claim C8: for every capacity C and every sequence of insert and lookup
operations on a Cache created with capacity C, the number of stored
entries after each completed operation never exceeds C.  (Every prefix of
a sequence is itself a sequence, so quantifying over all sequences covers
the state after each operation.) -/
theorem cache_size_never_exceeds_capacity (cap : Nat)
    (ops : List (CacheOp α β)) :
    (PyCache.runOps cap ops).store.length ≤ cap := by
  have h0 : (PyCache.mk0 α β cap).store.length ≤ (PyCache.mk0 α β cap).capacity := by
    simp [PyCache.mk0]
  have h1 := PyCache.foldl_invariant ops (PyCache.mk0 α β cap) h0
  have h2 := PyCache.capacity_foldl (α := α) (β := β) ops (PyCache.mk0 α β cap)
  unfold PyCache.runOps
  calc (List.foldl PyCache.applyOp (PyCache.mk0 α β cap) ops).store.length
      ≤ (List.foldl PyCache.applyOp (PyCache.mk0 α β cap) ops).capacity := h1
    _ = (PyCache.mk0 α β cap).capacity := h2
    _ = cap := rfl

/-- Claim C2, counterexample: a Cache of capacity 3 holding 3 entries
evicts 2 entries on inserting a fresh key; the claimed count
⌈3/2⌉ + 1 = 3 would leave 1 entry, but 2 remain. -/
theorem cache_eviction_count_counterexample :
    (PyCache.setItem (⟨3, [(1, 10), (2, 20), (3, 30)]⟩ : PyCache Nat Nat) 4 40).store
        = [(3, 30), (4, 40)]
      ∧ (3 + 1) / 2 + 1 = 3
      ∧ 3 + 1 - ((3 + 1) / 2 + 1) = 1
      ∧ ([(3, 30), (4, 40)] : List (Nat × Nat)).length ≠ 1 := by decide

theorem filter_fresh_eq {k : α} :
    ∀ {l : List (α × β)}, (∀ e ∈ l, e.1 ≠ k) →
      l.filter (fun e => decide (e.1 ≠ k)) = l := by
  intro l
  induction l with
  | nil => intro _; rfl
  | cons e rest ih =>
      intro hfresh
      have he : e.1 ≠ k := hfresh e (List.mem_cons_self e rest)
      have hrest := ih (fun x hx => hfresh x (List.mem_cons_of_mem e hx))
      rw [List.filter_cons, if_pos (by simp [he]), hrest]

/-- Claim C2, amended: inserting a fresh key into a Cache of capacity C
already holding C entries evicts exactly C / 2 + 1 entries (floor
division, i.e. ⌊C/2⌋ + 1 — not ⌈C/2⌉ + 1, which differs for odd C), and
for C ≥ 1 the evicted entries are the oldest-inserted ones (for C = 0
the one evicted entry is the just-inserted pair itself). -/
theorem cache_eviction_amended (C : Nat) (c : PyCache α β) (k : α) (v : β)
    (hcap : c.capacity = C) (hlen : c.store.length = C)
    (hfresh : ∀ e ∈ c.store, e.1 ≠ k) :
    (1 ≤ C → (c.setItem k v).store = c.store.drop (C / 2 + 1) ++ [(k, v)])
      ∧ (C = 0 → (c.setItem k v).store = [])
      ∧ c.store.length + 1 - (c.setItem k v).store.length = C / 2 + 1 := by
  have hfilter : c.store.filter (fun e => decide (e.1 ≠ k)) = c.store :=
    filter_fresh_eq hfresh
  have hstore : (c.setItem k v).store = (c.store ++ [(k, v)]).drop (C / 2 + 1) := by
    unfold PyCache.setItem
    dsimp only
    rw [hfilter, hcap]
    have hgt : (c.store ++ [(k, v)]).length > C := by
      rw [List.length_append, hlen]; simp
    simp only [if_pos hgt]
  refine ⟨?_, ?_, ?_⟩
  · intro hC
    rw [hstore]
    have hle : C / 2 + 1 ≤ c.store.length := by rw [hlen]; omega
    exact List.drop_append_of_le_length hle
  · intro hC
    subst hC
    rw [hstore]
    have h0 : c.store = [] := List.eq_nil_of_length_eq_zero hlen
    rw [h0]
    rfl
  · rw [hstore, List.length_drop, List.length_append, hlen]
    simp only [List.length_singleton]
    omega

/-- Witness for cache_eviction_amended at C = 3, the concrete cache
[(1,10),(2,20),(3,30)] and fresh key 4. -/
theorem cache_eviction_amended_witness :
    ((⟨3, [(1, 10), (2, 20), (3, 30)]⟩ : PyCache Nat Nat).capacity = 3
        ∧ ([(1, 10), (2, 20), (3, 30)] : List (Nat × Nat)).length = 3)
      ∧ ((⟨3, [(1, 10), (2, 20), (3, 30)]⟩ : PyCache Nat Nat).setItem 4 40).store
          = [(1, 10), (2, 20), (3, 30)].drop (3 / 2 + 1) ++ [(4, 40)] := by
  refine ⟨⟨rfl, rfl⟩, ?_⟩
  exact (cache_eviction_amended 3 ⟨3, [(1, 10), (2, 20), (3, 30)]⟩ 4 40 rfl rfl
    (by decide)).1 (by decide)

end CacheTheorems

section FetchPeersTheorems

/-- Claim C5: a peer whose min flag is set never contributes an entry to
the persisted peer or username tables — only full (non-minimal) records
do — and fetch_peers returns True exactly when at least one input peer
was minimal.  The two upsert batches are exactly the parsed rows of the
non-min peers, in input order (unrecognized shapes contribute none). -/
theorem fetch_peers_min_never_upserted (ps : List RawPeer) :
    (fetchPeers ps).isMin = ps.any RawPeer.minFlag
      ∧ (fetchPeers ps).parsedPeers
          = (ps.filter (fun p => !p.minFlag)).filterMap RawPeer.parsedRow
      ∧ (fetchPeers ps).parsedUsernames
          = (ps.filter (fun p => !p.minFlag)).filterMap RawPeer.parsedUsernameRow := by
  induction ps with
  | nil => exact ⟨rfl, rfl, rfl⟩
  | cons p rest ih =>
      obtain ⟨ih1, ih2, ih3⟩ := ih
      cases p with
      | user id ah ph bot m u us =>
          cases m <;>
            simp [fetchPeers, RawPeer.minFlag, RawPeer.parsedRow,
              RawPeer.parsedUsernameRow, ih1, ih2, ih3]
      | chat id =>
          simp [fetchPeers, RawPeer.minFlag, RawPeer.parsedRow,
            RawPeer.parsedUsernameRow, ih1, ih2, ih3]
      | channel id ah bc m u us =>
          cases m <;>
            simp [fetchPeers, RawPeer.minFlag, RawPeer.parsedRow,
              RawPeer.parsedUsernameRow, ih1, ih2, ih3]
      | channelForbidden id ah bc =>
          simp [fetchPeers, RawPeer.minFlag, RawPeer.parsedRow,
            RawPeer.parsedUsernameRow, ih1, ih2, ih3]
      | other =>
          simp [fetchPeers, RawPeer.minFlag, RawPeer.parsedRow,
            RawPeer.parsedUsernameRow, ih1, ih2, ih3]

end FetchPeersTheorems

section HandleUpdatesTheorems

theorem enqueue_mem_effects (skip : Bool) (date seq : Int) (isMin : Bool)
    (it : UpdItem) :
    Effect.enqueue it.tag ∈ it.effects skip date seq isMin := by
  simp [UpdItem.effects]

theorem enqueue_mem_itemLoop (skip : Bool) (date seq : Int) (isMin : Bool)
    {items : List UpdItem} {it : UpdItem} (hmem : it ∈ items) :
    Effect.enqueue it.tag ∈ itemLoop skip date seq isMin items := by
  induction items with
  | nil => cases hmem
  | cons hd rest ih =>
      rw [itemLoop]
      rcases List.mem_cons.mp hmem with heq | htl
      · subst heq
        exact List.mem_append_left _ (enqueue_mem_effects skip date seq isMin it)
      · exact List.mem_append_right _ (ih htl)

/-- Claim C1, counterexample: with the global scope recording pts 3, an
envelope carrying pts P = 10 and pts_count D = 1 (so P − D = 9 ≠ 3) is
applied anyway — the state is advanced to 10 and the update is enqueued
— and replaying the very same envelope enqueues it a second time instead
of dropping it as a duplicate. -/
theorem update_gap_check_counterexample :
    StateTable.recordedPts c1Table 0 = some 3
      ∧ (3 : Int) ≠ 10 - 1
      ∧ (handleUpdates false c1Env).filter Effect.isStateWrite
          = [Effect.updateState 0 10 none (some 55) (some 7)]
      ∧ Effect.enqueue 1 ∈ (runHandleUpdates false c1Table c1Env).2
      ∧ Effect.enqueue 1 ∈ (runHandleUpdates false
          (runHandleUpdates false c1Table c1Env).1 c1Env).2 := by decide

/-- Claim C1, amended: the update-handling path performs no pts gap
check at all — an update carrying a pts inside a container envelope is
enqueued for dispatch whatever the locally recorded pts for its scope is
(the trace does not depend on the state table), and replaying the same
envelope against the state left by its first application applies it
again: the replay is not dropped. -/
theorem handle_updates_no_gap_check (skip : Bool) (st : StateTable)
    (users chats : List RawPeer) (date seq : Int) (items : List UpdItem)
    (it : UpdItem) (hmem : it ∈ items) :
    Effect.enqueue it.tag
        ∈ (runHandleUpdates skip st (.container users chats date seq items)).2
      ∧ Effect.enqueue it.tag
          ∈ (runHandleUpdates skip
              (runHandleUpdates skip st (.container users chats date seq items)).1
              (.container users chats date seq items)).2 := by
  have hbody : Effect.enqueue it.tag
      ∈ handleUpdates skip (.container users chats date seq items) := by
    rw [handleUpdates]
    exact List.mem_append_right _ (enqueue_mem_itemLoop skip date seq _ hmem)
  exact ⟨hbody, hbody⟩

/-- Witness for handle_updates_no_gap_check at the c1Env envelope and
the c1Table state. -/
theorem handle_updates_no_gap_check_witness :
    (⟨1, some 10, some 1, none, none, false, false, false⟩ : UpdItem)
        ∈ [(⟨1, some 10, some 1, none, none, false, false, false⟩ : UpdItem)]
      ∧ Effect.enqueue 1
          ∈ (runHandleUpdates false c1Table
              (.container [] [] 55 7
                [⟨1, some 10, some 1, none, none, false, false, false⟩])).2 := by
  refine ⟨List.mem_singleton.mpr rfl, ?_⟩
  exact (handle_updates_no_gap_check false c1Table [] [] 55 7
    [⟨1, some 10, some 1, none, none, false, false, false⟩]
    ⟨1, some 10, some 1, none, none, false, false, false⟩
    (List.mem_singleton.mpr rfl)).1

theorem item_flush_heads_effects (date seq : Int) (isMin : Bool)
    (it : UpdItem) (p : Int) (hp : it.pts = some p) (hp0 : p ≠ 0) :
    ∃ rest, it.effects false date seq isMin
        = Effect.updateState it.scopeId p none (some date) (some seq) :: rest
      ∧ Effect.enqueue it.tag ∈ rest := by
  refine ⟨(if it.isChannelTooLong then [Effect.logInfo] else [])
    ++ (if it.isNewChannelMessage && isMin && it.hasNonEmptyMessage then
      [Effect.invokeChannelDiff it.tag] else [])
    ++ [Effect.enqueue it.tag], ?_, by simp⟩
  rw [UpdItem.effects, hp]
  have ht : truthyInt (some p) = true := by simp [truthyInt, hp0]
  simp [ht]

theorem no_state_write_in_itemLoop_of_skip (date seq : Int) (isMin : Bool) :
    ∀ (items : List UpdItem), ∀ e ∈ itemLoop true date seq isMin items,
      e.isStateWrite = false := by
  intro items
  induction items with
  | nil => intro e he; cases he
  | cons hd rest ih =>
      intro e he
      rw [itemLoop] at he
      rcases List.mem_append.mp he with hh | ht
      · rw [UpdItem.effects] at hh
        simp at hh
        rcases hh with ⟨-, rfl⟩ | ⟨-, rfl⟩ | rfl <;> rfl
      · exact ih e ht

theorem no_state_write_of_skip (u : UpdatesPayload) :
    ∀ e ∈ handleUpdates true u, e.isStateWrite = false := by
  intro e he
  cases u with
  | container users chats date seq items =>
      rw [handleUpdates] at he
      rcases List.mem_append.mp he with hp | hl
      · simp at hp
        rcases hp with h | h | h | h <;> subst h <;> rfl
      · exact no_state_write_in_itemLoop_of_skip date seq _ items e hl
  | shortMessage tag pts ptsCount date m o =>
      rw [handleUpdates] at he
      simp only [Bool.not_true, if_neg] at he
      simp at he
      rcases he with h | h
      · subst h; rfl
      · by_cases hm : m > 0
        · rw [if_pos hm] at h; simp at h; subst h; rfl
        · rw [if_neg hm] at h
          by_cases ho : o > 0
          · rw [if_pos ho] at h; simp at h; subst h; rfl
          · rw [if_neg ho] at h; cases h
  | updateShort tag =>
      rw [handleUpdates] at he
      simp at he; subst he; rfl
  | tooLong =>
      rw [handleUpdates] at he
      simp at he; subst he; rfl

theorem applyTrace_eq_of_no_write (st : StateTable) :
    ∀ (tr : List Effect), (∀ e ∈ tr, e.isStateWrite = false) →
      st.applyTrace tr = st := by
  intro tr
  induction tr generalizing st with
  | nil => intro _; rfl
  | cons e rest ih =>
      intro h
      have he : st.applyEffect e = st := by
        cases e with
        | updateState a b c d f =>
            exact absurd (h _ (List.mem_cons_self _ _)) (by simp [Effect.isStateWrite])
        | updatePeers rows => rfl
        | updateUsernames rows => rfl
        | logInfo => rfl
        | invokeChannelDiff t => rfl
        | invokeGetDifference a b => rfl
        | enqueue t => rfl
      rw [StateTable.applyTrace, List.foldl_cons, he]
      exact ih st (fun x hx => h x (List.mem_cons_of_mem e hx))

/-- Claim C6, counterexample: an update carrying pts = 0 (a pts value,
but falsy in Python) inside a container envelope is enqueued with no
state flush at all, even though update-skipping is not configured. -/
theorem state_flush_counterexample :
    (⟨1, some 0, some 1, none, none, false, false, false⟩ : UpdItem).pts.isSome = true
      ∧ handleUpdates false
          (.container [] [] 55 7 [⟨1, some 0, some 1, none, none, false, false, false⟩])
          = [Effect.updatePeers [], Effect.updateUsernames [],
             Effect.updatePeers [], Effect.updateUsernames [], Effect.enqueue 1]
      ∧ (handleUpdates false
          (.container [] [] 55 7 [⟨1, some 0, some 1, none, none, false, false, false⟩])).filter
            Effect.isStateWrite = [] := by decide

/-- Claim C6, amended: for every accepted update carrying a non-zero pts
(0 is falsy for the `if pts` test), with update-skipping off, the state
tuple (scope id, pts, qts placeholder None, envelope date, envelope seq)
is flushed before the update is enqueued — in the container path the
flush heads the per-update effect block whose tail holds the enqueue,
and in the short-message path the flush (with seq None) heads the whole
trace; with update-skipping configured, the persisted state table is
left unchanged by the entire envelope. -/
theorem state_flushed_before_enqueue (st : StateTable) (date seq : Int)
    (isMin : Bool) (it : UpdItem) (p : Int) (tag : Nat)
    (pts ptsCount sdate : Int) (m o : Nat) (u : UpdatesPayload) :
    (it.pts = some p → p ≠ 0 →
      ∃ rest, it.effects false date seq isMin
          = Effect.updateState it.scopeId p none (some date) (some seq) :: rest
        ∧ Effect.enqueue it.tag ∈ rest)
      ∧ (∃ rest, handleUpdates false (.shortMessage tag pts ptsCount sdate m o)
          = Effect.updateState 0 pts none (some sdate) none :: rest)
      ∧ (runHandleUpdates true st u).1 = st := by
  refine ⟨fun hp hp0 => item_flush_heads_effects date seq isMin it p hp hp0, ?_, ?_⟩
  · refine ⟨[Effect.invokeGetDifference (pts - ptsCount) sdate]
      ++ (if m > 0 then [Effect.enqueue tag]
          else if o > 0 then [Effect.enqueue tag] else []), ?_⟩
    rw [handleUpdates]
    simp
  · exact applyTrace_eq_of_no_write st _ (no_state_write_of_skip u)

/-- Witness for state_flushed_before_enqueue at a concrete update with
pts 10 in a container dated 55 with seq 7. -/
theorem state_flushed_before_enqueue_witness :
    ((⟨1, some 10, some 1, none, none, false, false, false⟩ : UpdItem).pts = some 10
        ∧ (10 : Int) ≠ 0)
      ∧ ∃ rest, (⟨1, some 10, some 1, none, none, false, false, false⟩ : UpdItem).effects
            false 55 7 false
          = Effect.updateState
              (⟨1, some 10, some 1, none, none, false, false, false⟩ : UpdItem).scopeId
              10 none (some 55) (some 7) :: rest
        ∧ Effect.enqueue 1 ∈ rest := by
  refine ⟨⟨rfl, by decide⟩, ?_⟩
  exact (state_flushed_before_enqueue [] 55 7 false
    ⟨1, some 10, some 1, none, none, false, false, false⟩ 10 0 0 0 0 0 0
    .tooLong).1 rfl (by decide)

end HandleUpdatesTheorems

section RecoverGapsTheorems

theorem altPrev_ne (k : Nat) :
    altPrev k ≠ (if k % 2 = 0 then (5 : Int) else 6) := by
  cases k with
  | zero => simp [altPrev]
  | succ m =>
      rw [altPrev]
      by_cases hm : m % 2 = 0
      · have h1 : (m + 1) % 2 = 1 := by omega
        simp [hm, h1]
      · have h1 : (m + 1) % 2 = 0 := by omega
        simp [hm, h1]

theorem altSlice_invariant (n : Nat) :
    (recRun altSliceStream (recInit 1 1) n).2 = true
      ∧ (recRun altSliceStream (recInit 1 1) n).1.prevPts = altPrev n := by
  induction n with
  | zero => exact ⟨rfl, rfl⟩
  | succ k ih =>
      obtain ⟨ih1, ih2⟩ := ih
      have hne : (recRun altSliceStream (recInit 1 1) k).1.prevPts
          ≠ (if k % 2 = 0 then (5 : Int) else 6) := by
        rw [ih2]; exact altPrev_ne k
      have hunf : recRun altSliceStream (recInit 1 1) (k + 1)
          = recStep (recRun altSliceStream (recInit 1 1) k).1 (altSliceStream k) := by
        rw [recRun]
        simp only [ih1, if_true]
      rw [hunf, altSliceStream, recStep, if_neg hne]
      exact ⟨rfl, by rw [altPrev]⟩

/-- Claim C3, counterexample: the fetch loop does not terminate against
every reply sequence.  Against the stream of partial slices whose
intermediate pts alternates 5, 6, 5, 6, ... no two consecutive slices
repeat a pts, so the no-progress abort never fires, no other break is
reachable, and the loop runs forever. -/
theorem recovery_nontermination_counterexample :
    ¬ RecTerminates altSliceStream (recInit 1 1) := by
  rintro ⟨n, hn⟩
  have h := (altSlice_invariant n).1
  rw [h] at hn
  cases hn

/-- Claim C3, amended: every reply shape other than a partial slice ends
the per-scope fetch loop, and a partial slice ends it when its
intermediate pts equals the pts recorded from the immediately preceding
slice iteration; the loop survives an iteration only on a slice whose
pts differs from that marker, and in particular terminates whenever the
server eventually sends any non-slice reply — but it does not terminate
against every reply sequence. -/
theorem recovery_loop_progress (resp : Nat → DiffResp) (s : RecState) (n : Nat) :
    ((recRun resp s (n + 1)).2 = true →
        (recRun resp s n).2 = true
          ∧ (resp n).isSlice = true
          ∧ (recRun resp s n).1.prevPts ≠ (resp n).slicePts)
      ∧ ((resp n).isSlice = false → (recRun resp s (n + 1)).2 = false) := by
  by_cases hc : (recRun resp s n).2 = true
  · have hunf : recRun resp s (n + 1)
        = recStep (recRun resp s n).1 (resp n) := by
      rw [recRun]
      simp only [hc, if_true]
    cases hr : resp n with
    | rpcError =>
        refine ⟨fun h => ?_, fun _ => ?_⟩
        · rw [hunf, hr] at h; simp [recStep] at h
        · rw [hunf, hr]; rfl
    | diffEmpty =>
        refine ⟨fun h => ?_, fun _ => ?_⟩
        · rw [hunf, hr] at h; simp [recStep] at h
        · rw [hunf, hr]; rfl
    | diffTooLong =>
        refine ⟨fun h => ?_, fun _ => ?_⟩
        · rw [hunf, hr] at h; simp [recStep] at h
        · rw [hunf, hr]; rfl
    | chDiffEmpty =>
        refine ⟨fun h => ?_, fun _ => ?_⟩
        · rw [hunf, hr] at h; simp [recStep] at h
        · rw [hunf, hr]; rfl
    | chDiffTooLong =>
        refine ⟨fun h => ?_, fun _ => ?_⟩
        · rw [hunf, hr] at h; simp [recStep] at h
        · rw [hunf, hr]; rfl
    | diffFinal p m o =>
        refine ⟨fun h => ?_, fun _ => ?_⟩
        · rw [hunf, hr] at h; simp [recStep] at h
        · rw [hunf, hr]; rfl
    | chDiffFinal p m o =>
        refine ⟨fun h => ?_, fun _ => ?_⟩
        · rw [hunf, hr] at h; simp [recStep] at h
        · rw [hunf, hr]; rfl
    | diffSlice p d m o =>
        refine ⟨fun h => ?_, fun hs => ?_⟩
        · by_cases he : (recRun resp s n).1.prevPts = p
          · rw [hunf, hr, recStep, if_pos he] at h
            simp at h
          · exact ⟨hc, rfl, he⟩
        · simp [DiffResp.isSlice] at hs
  · have hunf : recRun resp s (n + 1) = ((recRun resp s n).1, false) := by
      rw [recRun]
      simp [hc]
    refine ⟨fun h => ?_, fun _ => ?_⟩
    · rw [hunf] at h; simp at h
    · rw [hunf]

/-- Witness for recovery_loop_progress: a DifferenceEmpty reply at the
first iteration ends the loop. -/
theorem recovery_loop_progress_witness :
    DiffResp.diffEmpty.isSlice = false
      ∧ (recRun (fun _ => DiffResp.diffEmpty) (recInit 1 1) 1).2 = false := by
  refine ⟨rfl, ?_⟩
  exact (recovery_loop_progress (fun _ => DiffResp.diffEmpty) (recInit 1 1) 0).2 rfl

end RecoverGapsTheorems

section DispatcherTheorems

theorem insertByKey_perm (p : Int × List DHandler) :
    ∀ gs : GroupTable, (insertByKey p gs).Perm (p :: gs) := by
  intro gs
  induction gs with
  | nil => exact List.Perm.refl _
  | cons q rest ih =>
      rw [insertByKey]
      by_cases h : p.1 ≤ q.1
      · rw [if_pos h]
      · rw [if_neg h]
        exact (ih.cons q).trans (List.Perm.swap p q rest)

theorem sortByKey_perm : ∀ gs : GroupTable, (sortByKey gs).Perm gs := by
  intro gs
  induction gs with
  | nil => exact List.Perm.refl _
  | cons p rest ih =>
      rw [sortByKey]
      exact (insertByKey_perm p (sortByKey rest)).trans (ih.cons p)

theorem insertByKey_pairwise (p : Int × List DHandler) :
    ∀ gs : GroupTable, ((gs.map Prod.fst).Pairwise (· ≤ ·)) →
      (((insertByKey p gs).map Prod.fst).Pairwise (· ≤ ·)) := by
  intro gs
  induction gs with
  | nil => intro _; simp [insertByKey]
  | cons q rest ih =>
      intro hp
      rw [List.map_cons, List.pairwise_cons] at hp
      rw [insertByKey]
      by_cases h : p.1 ≤ q.1
      · rw [if_pos h]
        rw [List.map_cons, List.pairwise_cons]
        refine ⟨?_, ?_⟩
        · intro b hb
          rw [List.map_cons] at hb
          rcases List.mem_cons.mp hb with rfl | hb2
          · exact h
          · exact le_trans h (hp.1 b hb2)
        · rw [List.map_cons, List.pairwise_cons]
          exact hp
      · rw [if_neg h]
        rw [List.map_cons, List.pairwise_cons]
        refine ⟨?_, ih hp.2⟩
        intro b hb
        have hmem := ((insertByKey_perm p rest).map Prod.fst).mem_iff.mp hb
        rw [List.map_cons] at hmem
        rcases List.mem_cons.mp hmem with rfl | hb2
        · exact le_of_not_le h
        · exact hp.1 b hb2

theorem sortByKey_pairwise :
    ∀ gs : GroupTable, (((sortByKey gs).map Prod.fst).Pairwise (· ≤ ·)) := by
  intro gs
  induction gs with
  | nil => simp [sortByKey]
  | cons p rest ih =>
      rw [sortByKey]
      exact insertByKey_pairwise p (sortByKey rest) ih

theorem pairwise_lt_of_le_nodup {l : List Int}
    (h1 : l.Pairwise (· ≤ ·)) (h2 : l.Nodup) : l.Pairwise (· < ·) :=
  (h1.and h2).imp (fun hab => lt_of_le_of_ne hab.1 hab.2)

theorem lookupGroup_none_iff (gs : GroupTable) (g : Int) :
    lookupGroup gs g = none ↔ g ∉ gs.map Prod.fst := by
  rw [lookupGroup]
  rw [Option.map_eq_none']
  rw [List.find?_eq_none]
  constructor
  · intro h hm
    rcases List.mem_map.mp hm with ⟨e, he, heq⟩
    exact absurd (by simp [heq]) (h e he)
  · intro h e he
    simp only [decide_eq_true_eq]
    intro heq
    exact h (List.mem_map.mpr ⟨e, he, heq⟩)

theorem mem_of_lookupGroup_some {gs : GroupTable} {g : Int} {l : List DHandler}
    (h : lookupGroup gs g = some l) : (g, l) ∈ gs := by
  rw [lookupGroup] at h
  cases hf : gs.find? (fun e => decide (e.1 = g)) with
  | none => rw [hf] at h; cases h
  | some e =>
      rw [hf] at h
      have he : e.1 = g := by
        have := List.find?_some hf
        simpa using this
      have hm := List.mem_of_find?_eq_some hf
      have h2 : e.2 = l := by simpa using h
      have : e = (g, l) := by
        cases e
        simp only [Prod.mk.injEq]
        exact ⟨he, h2⟩
      rwa [this] at hm

theorem lookupGroup_of_mem :
    ∀ {gs : GroupTable}, (gs.map Prod.fst).Nodup →
      ∀ {g : Int} {l : List DHandler}, (g, l) ∈ gs → lookupGroup gs g = some l := by
  intro gs
  induction gs with
  | nil => intro _ g l hm; cases hm
  | cons e rest ih =>
      intro hnd g l hm
      rw [List.map_cons, List.nodup_cons] at hnd
      rcases List.mem_cons.mp hm with rfl | h2
      · rw [lookupGroup, List.find?_cons_of_pos _ (by simp)]
        rfl
      · have hgrest : g ∈ rest.map Prod.fst := List.mem_map.mpr ⟨(g, l), h2, rfl⟩
        have hne : ¬(e.1 = g) := fun hh => hnd.1 (hh ▸ hgrest)
        rw [lookupGroup, List.find?_cons_of_neg _ (by simp [hne])]
        exact ih hnd.2 h2

theorem lookupGroup_eq_of_perm {gs gs2 : GroupTable} (hperm : gs.Perm gs2)
    (hnd : (gs.map Prod.fst).Nodup) (g : Int) :
    lookupGroup gs g = lookupGroup gs2 g := by
  have hnd2 : (gs2.map Prod.fst).Nodup := ((hperm.map Prod.fst).nodup_iff).mp hnd
  cases hl : lookupGroup gs g with
  | some l =>
      have hm := mem_of_lookupGroup_some hl
      exact (lookupGroup_of_mem hnd2 (hperm.mem_iff.mp hm)).symm
  | none =>
      have hnm := (lookupGroup_none_iff gs g).mp hl
      have : g ∉ gs2.map Prod.fst := fun hmm =>
        hnm ((hperm.map Prod.fst).mem_iff.mpr hmm)
      exact ((lookupGroup_none_iff gs2 g).mpr this).symm

theorem lookupGroup_append_right {gs : GroupTable} {g : Int}
    (h : g ∉ gs.map Prod.fst) (tail : GroupTable) :
    lookupGroup (gs ++ tail) g = lookupGroup tail g := by
  induction gs with
  | nil => rfl
  | cons e rest ih =>
      rw [List.map_cons] at h
      have hne : ¬(e.1 = g) := fun hh => h (List.mem_cons.mpr (.inl hh.symm))
      rw [List.cons_append, lookupGroup, List.find?_cons_of_neg _ (by simp [hne])]
      exact ih (fun hh => h (List.mem_cons.mpr (.inr hh)))

theorem keys_appendToGroup (gs : GroupTable) (g : Int) (h : DHandler) :
    (appendToGroup gs g h).map Prod.fst = gs.map Prod.fst := by
  induction gs with
  | nil => rfl
  | cons e rest ih =>
      rw [appendToGroup] at ih ⊢
      rw [List.map_cons, List.map_cons, List.map_cons, ih]
      by_cases he : e.1 = g
      · rw [if_pos he]
      · rw [if_neg he]

theorem lookup_appendToGroup_self (g : Int) (h : DHandler) :
    ∀ gs : GroupTable,
      lookupGroup (appendToGroup gs g h) g
        = (lookupGroup gs g).map (fun l => l ++ [h]) := by
  intro gs
  induction gs with
  | nil => rfl
  | cons e rest ih =>
      rw [appendToGroup, List.map_cons]
      by_cases he : e.1 = g
      · rw [if_pos he]
        rw [lookupGroup, List.find?_cons_of_pos _ (by simp [he]),
          lookupGroup, List.find?_cons_of_pos _ (by simp [he])]
        rfl
      · rw [if_neg he]
        rw [lookupGroup, List.find?_cons_of_neg _ (by simp [he]),
          lookupGroup, List.find?_cons_of_neg _ (by simp [he])]
        rw [← lookupGroup, ← lookupGroup, ← appendToGroup]
        exact ih

theorem lookup_appendToGroup_ne (g g' : Int) (hne : g' ≠ g) (h : DHandler) :
    ∀ gs : GroupTable,
      lookupGroup (appendToGroup gs g h) g' = lookupGroup gs g' := by
  intro gs
  induction gs with
  | nil => rfl
  | cons e rest ih =>
      rw [appendToGroup, List.map_cons]
      by_cases he : e.1 = g'
      · have heg : ¬(e.1 = g) := fun hh => hne (he ▸ hh ▸ rfl)
        rw [if_neg heg]
        rw [lookupGroup, List.find?_cons_of_pos _ (by simp [he]),
          lookupGroup, List.find?_cons_of_pos _ (by simp [he])]
      · by_cases heg : e.1 = g
        · rw [if_pos heg]
          rw [lookupGroup, List.find?_cons_of_neg _ (by simp [he]),
            lookupGroup, List.find?_cons_of_neg _ (by simp [he])]
          rw [← lookupGroup, ← lookupGroup, ← appendToGroup]
          exact ih
        · rw [if_neg heg]
          rw [lookupGroup, List.find?_cons_of_neg _ (by simp [he]),
            lookupGroup, List.find?_cons_of_neg _ (by simp [he])]
          rw [← lookupGroup, ← lookupGroup, ← appendToGroup]
          exact ih

theorem any_key_iff (gs : GroupTable) (g : Int) :
    gs.any (fun e => decide (e.1 = g)) = true ↔ g ∈ gs.map Prod.fst := by
  simp only [List.any_eq_true, decide_eq_true_eq, List.mem_map]

theorem keys_append_singleton_nodup {gs : GroupTable} {g : Int}
    (hnd : (gs.map Prod.fst).Nodup) (hg : g ∉ gs.map Prod.fst) :
    ((gs ++ [(g, [])]).map Prod.fst).Nodup := by
  rw [List.map_append]
  simp only [List.map_cons, List.map_nil]
  rw [List.nodup_append]
  refine ⟨hnd, List.nodup_singleton g, ?_⟩
  intro a ha hb
  rw [List.mem_singleton] at hb
  subst hb
  exact hg ha

theorem lookupGroup_append (gs tail : GroupTable) (g : Int) :
    lookupGroup (gs ++ tail) g
      = (match lookupGroup gs g with
         | some l => some l
         | none => lookupGroup tail g) := by
  induction gs with
  | nil => rfl
  | cons e rest ih =>
      by_cases he : e.1 = g
      · rw [List.cons_append, lookupGroup, List.find?_cons_of_pos _ (by simp [he]),
          lookupGroup, List.find?_cons_of_pos _ (by simp [he])]
        rfl
      · rw [List.cons_append, lookupGroup, List.find?_cons_of_neg _ (by simp [he]),
          lookupGroup, List.find?_cons_of_neg _ (by simp [he])]
        rw [← lookupGroup, ← lookupGroup]
        exact ih

theorem nodup_keys_of_pairwise_lt {gs : GroupTable}
    (hlt : (gs.map Prod.fst).Pairwise (· < ·)) : (gs.map Prod.fst).Nodup :=
  hlt.imp (fun hab => ne_of_lt hab)

theorem addHandler_pairwise {gs : GroupTable} (h : DHandler) (g : Int)
    (hlt : (gs.map Prod.fst).Pairwise (· < ·)) :
    ((addHandler gs h g).map Prod.fst).Pairwise (· < ·) := by
  rw [addHandler]
  by_cases hin : gs.any (fun e => decide (e.1 = g)) = true
  · rw [if_pos hin, keys_appendToGroup]
    exact hlt
  · rw [if_neg hin, keys_appendToGroup]
    have hg : g ∉ gs.map Prod.fst := fun hm => hin ((any_key_iff gs g).mpr hm)
    have hnd1 : ((gs ++ [(g, [])]).map Prod.fst).Nodup :=
      keys_append_singleton_nodup (nodup_keys_of_pairwise_lt hlt) hg
    have hnd2 : ((sortByKey (gs ++ [(g, [])])).map Prod.fst).Nodup :=
      ((sortByKey_perm (gs ++ [(g, [])])).map Prod.fst).nodup_iff.mpr hnd1
    exact pairwise_lt_of_le_nodup (sortByKey_pairwise _) hnd2

theorem lookup_addHandler_self {gs : GroupTable} (h : DHandler) (g : Int)
    (hnd : (gs.map Prod.fst).Nodup) :
    lookupGroup (addHandler gs h g) g
      = some ((lookupGroup gs g).getD [] ++ [h]) := by
  rw [addHandler]
  by_cases hin : gs.any (fun e => decide (e.1 = g)) = true
  · rw [if_pos hin, lookup_appendToGroup_self]
    have hgk : g ∈ gs.map Prod.fst := (any_key_iff gs g).mp hin
    cases hl : lookupGroup gs g with
    | none => exact absurd hgk ((lookupGroup_none_iff gs g).mp hl)
    | some l => simp
  · rw [if_neg hin]
    have hg : g ∉ gs.map Prod.fst := fun hm => hin ((any_key_iff gs g).mpr hm)
    have hlnone : lookupGroup gs g = none := (lookupGroup_none_iff gs g).mpr hg
    have hnd1 : ((gs ++ [(g, [])]).map Prod.fst).Nodup :=
      keys_append_singleton_nodup hnd hg
    have hndS : ((sortByKey (gs ++ [(g, [])])).map Prod.fst).Nodup :=
      ((sortByKey_perm (gs ++ [(g, [])])).map Prod.fst).nodup_iff.mpr hnd1
    rw [lookup_appendToGroup_self]
    rw [lookupGroup_eq_of_perm (sortByKey_perm _) hndS g]
    rw [lookupGroup_append_right hg]
    rw [show lookupGroup [(g, [])] g = some [] from by
      rw [lookupGroup, List.find?_cons_of_pos _ (by simp)]; rfl]
    rw [hlnone]
    rfl

theorem lookup_addHandler_ne {gs : GroupTable} (h : DHandler) (g g' : Int)
    (hne : g' ≠ g) (hnd : (gs.map Prod.fst).Nodup) :
    lookupGroup (addHandler gs h g) g' = lookupGroup gs g' := by
  rw [addHandler]
  by_cases hin : gs.any (fun e => decide (e.1 = g)) = true
  · rw [if_pos hin, lookup_appendToGroup_ne g g' hne]
  · rw [if_neg hin, lookup_appendToGroup_ne g g' hne]
    have hg : g ∉ gs.map Prod.fst := fun hm => hin ((any_key_iff gs g).mpr hm)
    have hnd1 : ((gs ++ [(g, [])]).map Prod.fst).Nodup :=
      keys_append_singleton_nodup hnd hg
    have hndS : ((sortByKey (gs ++ [(g, [])])).map Prod.fst).Nodup :=
      ((sortByKey_perm (gs ++ [(g, [])])).map Prod.fst).nodup_iff.mpr hnd1
    rw [lookupGroup_eq_of_perm (sortByKey_perm _) hndS g']
    rw [lookupGroup_append]
    have hone : lookupGroup [(g, [])] g' = none := by
      rw [lookupGroup, List.find?_cons_of_neg _ (by
        simp only [decide_eq_true_eq]
        exact Ne.symm hne)]
      rfl
    cases hl : lookupGroup gs g' with
    | none => rw [hone]
    | some l => rfl

theorem addHandler_nodup {gs : GroupTable} (h : DHandler) (g : Int)
    (hnd : (gs.map Prod.fst).Nodup) :
    ((addHandler gs h g).map Prod.fst).Nodup := by
  rw [addHandler]
  by_cases hin : gs.any (fun e => decide (e.1 = g)) = true
  · rw [if_pos hin, keys_appendToGroup]
    exact hnd
  · rw [if_neg hin, keys_appendToGroup]
    have hg : g ∉ gs.map Prod.fst := fun hm => hin ((any_key_iff gs g).mpr hm)
    have hnd1 : ((gs ++ [(g, [])]).map Prod.fst).Nodup :=
      keys_append_singleton_nodup hnd hg
    exact ((sortByKey_perm (gs ++ [(g, [])])).map Prod.fst).nodup_iff.mpr hnd1

theorem buildFold_lookup :
    ∀ (ops : List (DHandler × Int)) (gs : GroupTable),
      (gs.map Prod.fst).Nodup →
      (((ops.foldl (fun t o => addHandler t o.1 o.2) gs).map Prod.fst).Nodup
        ∧ ∀ g, lookupGroup (ops.foldl (fun t o => addHandler t o.1 o.2) gs) g
            = (match lookupGroup gs g with
               | some l => some (l ++ regOrder ops g)
               | none =>
                   if ops.any (fun o => decide (o.2 = g)) then
                     some (regOrder ops g)
                   else none)) := by
  intro ops
  induction ops with
  | nil =>
      intro gs hnd
      refine ⟨hnd, fun g => ?_⟩
      cases hl : lookupGroup gs g with
      | some l => simp [regOrder, hl]
      | none => simp [regOrder, hl]
  | cons op rest ih =>
      intro gs hnd
      rw [List.foldl_cons]
      obtain ⟨hnd2, hlook⟩ := ih (addHandler gs op.1 op.2) (addHandler_nodup op.1 op.2 hnd)
      refine ⟨hnd2, fun g => ?_⟩
      rw [hlook g]
      by_cases hg : op.2 = g
      · subst hg
        rw [lookup_addHandler_self op.1 op.2 hnd]
        cases hl : lookupGroup gs op.2 with
        | some l => simp [regOrder, List.filter_cons, hl]
        | none => simp [regOrder, List.filter_cons, hl]
      · rw [lookup_addHandler_ne op.1 op.2 g (fun hh => hg hh.symm) hnd]
        have hdec : (decide (op.2 = g)) = false := by simp [hg]
        cases hl : lookupGroup gs g with
        | some l => simp [regOrder, List.filter_cons, hdec, hl]
        | none =>
            by_cases hany : (rest.any fun o => decide (o.2 = g)) = true
            · simp [regOrder, List.filter_cons, hdec, hl, hany]
            · simp [regOrder, List.filter_cons, hdec, hl, hany]

theorem buildGroupsL_pairwise_aux :
    ∀ (ops : List (DHandler × Int)) (gs : GroupTable),
      (gs.map Prod.fst).Pairwise (· < ·) →
      ((ops.foldl (fun t o => addHandler t o.1 o.2) gs).map Prod.fst).Pairwise
        (· < ·) := by
  intro ops
  induction ops with
  | nil => intro gs h; exact h
  | cons op rest ih =>
      intro gs h
      rw [List.foldl_cons]
      exact ih (addHandler gs op.1 op.2) (addHandler_pairwise op.1 op.2 h)

theorem runGroup_spec (hs : List DHandler) :
    (runGroup hs).1
        = (((hs.filter (fun h => h.argsSet)).takeWhile
              (fun h => decide (h.cb = CbResult.continuePropagation)))
            ++ ((hs.filter (fun h => h.argsSet)).dropWhile
              (fun h => decide (h.cb = CbResult.continuePropagation))).take 1).map
            DHandler.hid
      ∧ (runGroup hs).2
          = decide ((((hs.filter (fun h => h.argsSet)).dropWhile
              (fun h => decide (h.cb = CbResult.continuePropagation))).take 1).map
                DHandler.cb = [CbResult.stopPropagation]) := by
  induction hs with
  | nil => exact ⟨rfl, rfl⟩
  | cons h rest ih =>
      obtain ⟨ih1, ih2⟩ := ih
      by_cases ha : h.argsSet = true
      · cases hcb : h.cb with
        | ok =>
            refine ⟨?_, ?_⟩ <;>
              simp [runGroup, ha, hcb, List.filter_cons,
                List.takeWhile_cons, List.dropWhile_cons]
        | stopPropagation =>
            refine ⟨?_, ?_⟩ <;>
              simp [runGroup, ha, hcb, List.filter_cons,
                List.takeWhile_cons, List.dropWhile_cons]
        | continuePropagation =>
            refine ⟨?_, ?_⟩ <;>
              simp [runGroup, ha, hcb, List.filter_cons,
                List.takeWhile_cons, List.dropWhile_cons, ih1, ih2]
        | raisesError =>
            refine ⟨?_, ?_⟩ <;>
              simp [runGroup, ha, hcb, List.filter_cons,
                List.takeWhile_cons, List.dropWhile_cons]
      · refine ⟨?_, ?_⟩ <;>
          simp [runGroup, ha, List.filter_cons, ih1, ih2]

/-- Claim C4, counterexample: two handlers whose checks both pass, in
groups 0 and 1; a dispatch pass invokes both callbacks — the `break`
after a callback only ends the current group, not the pass — so the
first matching handler of the pass is not the only one invoked, refuting
first-match-wins at pass level (stop/continue signals are not involved:
both callbacks return normally). -/
theorem first_match_per_pass_counterexample :
    buildGroupsL [(⟨0, true, .ok⟩, 0), (⟨1, true, .ok⟩, 1)]
        = [(0, [⟨0, true, .ok⟩]), (1, [⟨1, true, .ok⟩])]
      ∧ dispatchPass (buildGroupsL [(⟨0, true, .ok⟩, 0), (⟨1, true, .ok⟩, 1)])
          = [0, 1]
      ∧ ([0, 1] : List Nat) ≠ [0] := by decide

/-- Claim C4, amended: handler groups are visited in ascending numeric
priority order (the group table built by add_handler keeps its keys
strictly sorted) and handlers within a group sit in registration order;
matching is first-match-wins within each GROUP, not within the whole
pass: per group, the callbacks invoked are the first check-passing
handlers up to and including the first one that does not raise the
continue signal; a callback raising the stop-propagation signal ends
the whole pass (later groups are skipped), and one raising the continue
signal skips to the next handler in the same pass. -/
theorem dispatch_pass_structure (ops : List (DHandler × Int))
    (hs : List DHandler) (k : Int) (rest : GroupTable) :
    ((buildGroupsL ops).map Prod.fst).Pairwise (· < ·)
      ∧ (∀ g l, lookupGroup (buildGroupsL ops) g = some l → l = regOrder ops g)
      ∧ (runGroup hs).1
          = (((hs.filter (fun h => h.argsSet)).takeWhile
                (fun h => decide (h.cb = CbResult.continuePropagation)))
              ++ ((hs.filter (fun h => h.argsSet)).dropWhile
                (fun h => decide (h.cb = CbResult.continuePropagation))).take 1).map
              DHandler.hid
      ∧ ((runGroup hs).2 = true → dispatchPass ((k, hs) :: rest) = (runGroup hs).1)
      ∧ ((runGroup hs).2 = false →
          dispatchPass ((k, hs) :: rest) = (runGroup hs).1 ++ dispatchPass rest) := by
  refine ⟨?_, ?_, (runGroup_spec hs).1, ?_, ?_⟩
  · rw [buildGroupsL]
    exact buildGroupsL_pairwise_aux ops [] (by simp)
  · intro g l hl
    have h2 := (buildFold_lookup ops [] (by simp)).2 g
    rw [buildGroupsL] at hl
    rw [hl] at h2
    by_cases hany : ([] : List (DHandler × Int)) ++ ops = ops
    all_goals {
      simp only [show lookupGroup [] g = none from rfl] at h2
      by_cases ha : ops.any (fun o => decide (o.2 = g)) = true
      · rw [if_pos ha] at h2
        exact Option.some_injective _ h2
      · rw [if_neg ha] at h2
        cases h2
    }
  · intro hstop
    rw [dispatchPass, if_pos hstop]
  · intro hstop
    rw [dispatchPass]
    rw [hstop]
    rfl

/-- Witness for dispatch_pass_structure: a stop-propagation handler in
the first group makes the pass skip the second group. -/
theorem dispatch_pass_structure_witness :
    (runGroup [(⟨0, true, .stopPropagation⟩ : DHandler)]).2 = true
      ∧ dispatchPass [(0, [(⟨0, true, .stopPropagation⟩ : DHandler)]),
          (1, [(⟨1, true, .ok⟩ : DHandler)])]
          = (runGroup [(⟨0, true, .stopPropagation⟩ : DHandler)]).1 := by
  refine ⟨rfl, ?_⟩
  exact (dispatch_pass_structure [] [(⟨0, true, .stopPropagation⟩ : DHandler)] 0
    [(1, [(⟨1, true, .ok⟩ : DHandler)])]).2.2.2.1 rfl

end DispatcherTheorems

section CdnTheorems

theorem verifyCdnHashes_spec (sha : List Nat → List Nat) (d : List Nat) :
    ∀ (hashes : List CdnFileHash) (i : Nat),
      verifyCdnHashes sha d hashes i = true
        ↔ ∀ (j : Nat) (hj : j < hashes.length),
            sha (pySlice d (hashes[j].limit * (i + j)) (hashes[j].limit * (i + j + 1)))
              = hashes[j].hash := by
  intro hashes
  induction hashes with
  | nil =>
      intro i
      simp [verifyCdnHashes]
  | cons h rest ih =>
      intro i
      rw [verifyCdnHashes]
      by_cases hh : sha (pySlice d (h.limit * i) (h.limit * (i + 1))) = h.hash
      · rw [if_pos hh, ih (i + 1)]
        constructor
        · intro hall j hj
          cases j with
          | zero =>
              simp only [List.getElem_cons_zero, Nat.add_zero]
              exact hh
          | succ j2 =>
              simp only [List.getElem_cons_succ]
              have h2 := hall j2 (by
                simp only [List.length_cons] at hj
                omega)
              have e1 : i + 1 + j2 = i + (j2 + 1) := by omega
              rw [e1] at h2
              exact h2
        · intro hall j hj
          have h2 := hall (j + 1) (by
            simp only [List.length_cons]
            omega)
          simp only [List.getElem_cons_succ] at h2
          have e1 : i + (j + 1) = i + 1 + j := by omega
          rw [e1] at h2
          exact h2
      · rw [if_neg hh]
        constructor
        · intro hfalse
          cases hfalse
        · intro hall
          exfalso
          have h0 := hall 0 (by simp)
          simp only [List.getElem_cons_zero, Nat.add_zero] at h0
          exact hh h0

/-- Claim C7: a CDN chunk is decrypted by the separate CTR path keyed by
the redirect-supplied encryption key and IV (the per-chunk IV splices the
chunk offset into the last 4 IV bytes), and the chunk is yielded exactly
when every hash-limit-sized piece of the decrypted chunk matches the
server-supplied SHA-256 digest; any mismatch raises CDNFileHashMismatch
and the chunk is not delivered (only the decrypted chunk can ever be
yielded). -/
theorem cdn_chunk_decrypt_verify
    (ctr256Decrypt : List Nat → List Nat → List Nat → List Nat)
    (sha : List Nat → List Nat) (encryptionKey encryptionIv : List Nat)
    (offsetBytes : Nat) (chunk : List Nat) (hashes : List CdnFileHash) :
    (processCdnChunk ctr256Decrypt sha encryptionKey encryptionIv offsetBytes chunk hashes
        = .yielded (ctr256Decrypt chunk encryptionKey (cdnChunkIv encryptionIv offsetBytes))
      ↔ ∀ (j : Nat) (hj : j < hashes.length),
          sha (pySlice (ctr256Decrypt chunk encryptionKey (cdnChunkIv encryptionIv offsetBytes))
              (hashes[j].limit * j) (hashes[j].limit * (j + 1)))
            = hashes[j].hash)
      ∧ (processCdnChunk ctr256Decrypt sha encryptionKey encryptionIv offsetBytes chunk hashes
            = .hashMismatchRaised
          ↔ ¬ ∀ (j : Nat) (hj : j < hashes.length),
              sha (pySlice (ctr256Decrypt chunk encryptionKey (cdnChunkIv encryptionIv offsetBytes))
                  (hashes[j].limit * j) (hashes[j].limit * (j + 1)))
                = hashes[j].hash)
      ∧ (∀ c, processCdnChunk ctr256Decrypt sha encryptionKey encryptionIv offsetBytes chunk hashes
            = .yielded c
          → c = ctr256Decrypt chunk encryptionKey (cdnChunkIv encryptionIv offsetBytes)) := by
  have hspec := verifyCdnHashes_spec sha
    (ctr256Decrypt chunk encryptionKey (cdnChunkIv encryptionIv offsetBytes)) hashes 0
  simp only [Nat.zero_add] at hspec
  by_cases hv : verifyCdnHashes sha
      (ctr256Decrypt chunk encryptionKey (cdnChunkIv encryptionIv offsetBytes)) hashes 0 = true
  · have hrun : processCdnChunk ctr256Decrypt sha encryptionKey encryptionIv offsetBytes
        chunk hashes
        = .yielded (ctr256Decrypt chunk encryptionKey (cdnChunkIv encryptionIv offsetBytes)) := by
      rw [processCdnChunk]
      rw [if_pos hv]
    refine ⟨?_, ?_, ?_⟩
    · rw [hrun]
      simp only [true_iff]
      exact hspec.mp hv
    · rw [hrun]
      constructor
      · intro hcontra
        cases hcontra
      · intro hnall
        exact absurd (hspec.mp hv) hnall
    · intro c hc
      rw [hrun] at hc
      cases hc
      rfl
  · have hrun : processCdnChunk ctr256Decrypt sha encryptionKey encryptionIv offsetBytes
        chunk hashes = .hashMismatchRaised := by
      rw [processCdnChunk]
      rw [if_neg hv]
    refine ⟨?_, ?_, ?_⟩
    · rw [hrun]
      constructor
      · intro hcontra
        cases hcontra
      · intro hall
        exact absurd (hspec.mpr hall) hv
    · rw [hrun]
      simp only [true_iff]
      intro hall
      exact hv (hspec.mpr hall)
    · intro c hc
      rw [hrun] at hc
      cases hc

/-- Witness for cdn_chunk_decrypt_verify at identity decrypt/hash, an
empty key and IV, offset 0, the chunk [1, 2] and one matching hash of
piece size 2. -/
theorem cdn_chunk_decrypt_verify_witness :
    processCdnChunk (fun c _ _ => c) (fun l => l) [] [] 0 [1, 2] [⟨2, [1, 2]⟩]
      = .yielded [1, 2] := by
  exact (cdn_chunk_decrypt_verify (fun c _ _ => c) (fun l => l) [] [] 0 [1, 2]
    [⟨2, [1, 2]⟩]).1.mpr (by decide)

end CdnTheorems

section GetFileExcTheorems

/-- Claim C10, counterexample: asyncio.CancelledError raised while
fetching a chunk propagates out of get_file to the consumer (it derives
from BaseException only, so `except Exception` does not catch it), yet
it is none of StopTransmission, FloodWait, FloodPremiumWait. -/
theorem get_file_exception_counterexample :
    getFileRun [.chunk [1], .raiseExc .cancelledError] = ([[1]], some .cancelledError)
      ∧ PyExc.cancelledError ≠ PyExc.stopTransmission
      ∧ PyExc.cancelledError ≠ PyExc.floodWait
      ∧ PyExc.cancelledError ≠ PyExc.floodPremiumWait := by decide

theorem getFileRun_propagated :
    ∀ (steps : List FetchStep) (e : PyExc), (getFileRun steps).2 = some e →
      e = .stopTransmission ∨ e = .floodWait ∨ e = .floodPremiumWait
        ∨ e.derivesFromException = false := by
  intro steps
  induction steps with
  | nil => intro e h; cases h
  | cons s rest ih =>
      intro e h
      cases s with
      | chunk c =>
          rw [getFileRun] at h
          exact ih e h
      | raiseExc ex =>
          rw [getFileRun] at h
          cases ex with
          | stopTransmission =>
              simp [getFileExcFilter] at h
              subst h
              exact .inl rfl
          | floodWait =>
              simp [getFileExcFilter] at h
              subst h
              exact .inr (.inl rfl)
          | floodPremiumWait =>
              simp [getFileExcFilter] at h
              subst h
              exact .inr (.inr (.inl rfl))
          | cancelledError =>
              simp [getFileExcFilter, PyExc.derivesFromException] at h
              subst h
              exact .inr (.inr (.inr rfl))
          | cdnFileHashMismatch =>
              simp [getFileExcFilter, PyExc.derivesFromException] at h
          | authBytesInvalid =>
              simp [getFileExcFilter, PyExc.derivesFromException] at h
          | otherException =>
              simp [getFileExcFilter, PyExc.derivesFromException] at h

theorem getFileRun_truncates (e1 : PyExc) (hE : e1.derivesFromException = true)
    (h1 : e1 ≠ .stopTransmission) (h2 : e1 ≠ .floodWait)
    (h3 : e1 ≠ .floodPremiumWait) :
    ∀ (pre : List (List Nat)) (suf : List FetchStep),
      getFileRun (pre.map FetchStep.chunk ++ FetchStep.raiseExc e1 :: suf)
        = (pre, none) := by
  intro pre
  induction pre with
  | nil =>
      intro suf
      rw [List.map_nil, List.nil_append, getFileRun, getFileExcFilter]
      rw [if_neg h1, if_neg (by rintro (hw | hw); exact h2 hw; exact h3 hw), if_pos hE]
  | cons c cs ih =>
      intro suf
      rw [List.map_cons, List.cons_append, getFileRun, ih suf]

/-- Claim C10, amended: the exceptions propagated to the consumer of
get_file are StopTransmission, FloodWait, FloodPremiumWait — and any
exception not derived from Exception (such as asyncio.CancelledError),
which the final `except Exception` clause cannot catch; every other
exception raised while fetching or decrypting chunks is logged and ends
the chunk stream normally, so the consumer observes a truncated but
apparently successful sequence of chunks. -/
theorem get_file_exception_policy (steps : List FetchStep) (e e1 : PyExc)
    (pre : List (List Nat)) (suf : List FetchStep) :
    ((getFileRun steps).2 = some e →
        e = .stopTransmission ∨ e = .floodWait ∨ e = .floodPremiumWait
          ∨ e.derivesFromException = false)
      ∧ (e1.derivesFromException = true → e1 ≠ .stopTransmission →
          e1 ≠ .floodWait → e1 ≠ .floodPremiumWait →
          getFileRun (pre.map FetchStep.chunk ++ FetchStep.raiseExc e1 :: suf)
            = (pre, none)) :=
  ⟨getFileRun_propagated steps e,
   fun hE h1 h2 h3 => getFileRun_truncates e1 hE h1 h2 h3 pre suf⟩

/-- Witness for get_file_exception_policy: a generic Exception after two
yielded chunks is swallowed and the consumer sees exactly those two
chunks with no error. -/
theorem get_file_exception_policy_witness :
    (PyExc.otherException.derivesFromException = true
        ∧ PyExc.otherException ≠ PyExc.stopTransmission
        ∧ PyExc.otherException ≠ PyExc.floodWait
        ∧ PyExc.otherException ≠ PyExc.floodPremiumWait)
      ∧ getFileRun [.chunk [1], .chunk [2], .raiseExc .otherException, .chunk [3]]
          = ([[1], [2]], none) := by
  refine ⟨⟨rfl, by decide, by decide, by decide⟩, ?_⟩
  exact (get_file_exception_policy [] .otherException .otherException [[1], [2]]
    [.chunk [3]]).2 rfl (by decide) (by decide) (by decide)

end GetFileExcTheorems

end Pyro
